import Mathlib

/-
Verification of the battery-arbitrage environment of the
sagemaker-rl-energy-storage-system repository.

The repository's source files under version control here are the two
orchestration notebooks; the `energy_storage_system` package that defines
the `SimpleBattery` gym environment, its heuristic agents, and the helper
`evaluate_episode` is referenced by the notebooks but its files are not
present.  Where a definition embeds code that is missing, its doc comment
says so explicitly (`Modelled from the spec:`) and follows the design
document's words.  The DQN evaluation configuration (`get_agent`) is
embedded directly from the evaluation notebook.
-/

namespace EnergyStorage

/-- The three environment actions.  The notebook documents the encoding
CHARGE = 0, DISCHARGE = 1, HOLD = 2. -/
inductive Action where
  | CHARGE
  | DISCHARGE
  | HOLD
deriving DecidableEq, Repr

/-- Modelled from the spec: the error taxonomy of section 7 of the design
document (the `energy_storage_system.envs` module is not among the source
files).  `OutOfRangeError` for stepping a finished episode or an exhausted
price series, `ConfigurationError` for invalid construction parameters,
`InvalidActionError` for an action outside the enumeration. -/
inductive EnvError where
  | OutOfRangeError
  | ConfigurationError
  | InvalidActionError
deriving DecidableEq, Repr

/-- Modelled from the spec: `EnvironmentConfig`, the immutable configuration
of the battery environment — max steps per episode and the battery physical
parameters (capacity, charge/discharge rate, efficiency, initial stored
energy level).  Prices and energies are rationals. -/
structure EnvConfig where
  maxStepsPerEpisode : ℕ
  capacity : ℚ
  chargeRate : ℚ
  dischargeRate : ℚ
  efficiency : ℚ
  initialEnergy : ℚ
deriving DecidableEq, Repr

/-- Modelled from the spec: `EnvironmentState`, the mutable per-episode
state — current step index, current stored energy level, cumulative reward,
and the episode-done flag. -/
structure EnvState where
  stepIdx : ℕ
  energy : ℚ
  cumReward : ℚ
  done : Bool
deriving DecidableEq, Repr

/-- Modelled from the spec: `Observation`, the derived read-only view of the
state exposed to an agent — current price, state of charge, step index. -/
structure Observation where
  price : ℚ
  soc : ℚ
  stepIdx : ℕ
deriving DecidableEq, Repr

/-- A `PriceSeries` is an ordered sequence of prices indexed by step
offset (timestamps play no role in the step dynamics). -/
abbrev PriceSeries := List ℚ

/-- Modelled from the spec: `reset()` reinitializes the `EnvironmentState`
regardless of the previous state: step index 0, stored energy at the
configured initial level, cumulative reward 0, episode not done. -/
def reset (cfg : EnvConfig) (_s : EnvState) : EnvState :=
  { stepIdx := 0, energy := cfg.initialEnergy, cumReward := 0, done := false }

/-- Modelled from the spec: the observation derived from a state — the price
at the current step index, the state of charge, and the step index. -/
def observe (ps : PriceSeries) (s : EnvState) : Observation :=
  { price := ps.getD s.stepIdx 0, soc := s.energy, stepIdx := s.stepIdx }

/-- Modelled from the spec: `step(action)` of the battery environment
(section 4.1 of the design document).  It fails with `OutOfRangeError` when
the episode is already done or the price series is exhausted; otherwise it
reads the price at the current step index and applies the action:
CHARGE adds charge-rate × efficiency clipped at capacity and spends
charge-rate × price; DISCHARGE removes the available part of discharge-rate
(clipped at empty) and earns the discharged amount × price; HOLD changes
nothing.  The reward is revenue minus cost; the step index increments and
`done` becomes true when it reaches max steps per episode or the end of the
price series, whichever is first.  `applyAction` is the action dispatch of
that contract: its first component is the new stored energy, its second the
reward (revenue minus cost) of the step. -/
def applyAction (cfg : EnvConfig) (energy price : ℚ) : Action → ℚ × ℚ
  | .CHARGE =>
      (energy + min (cfg.chargeRate * cfg.efficiency) (cfg.capacity - energy),
       -(cfg.chargeRate * price))
  | .DISCHARGE =>
      let discharged := min cfg.dischargeRate energy
      (energy - discharged, discharged * price)
  | .HOLD => (energy, 0)

/-- Modelled from the spec: `step(action)`, assembled from `applyAction` and
the termination test; see the contract restated above `applyAction`. -/
def step (cfg : EnvConfig) (ps : PriceSeries) (s : EnvState) (a : Action) :
    Except EnvError (EnvState × Observation × ℚ × Bool) :=
  if s.done then
    .error .OutOfRangeError
  else if ps.length ≤ s.stepIdx then
    .error .OutOfRangeError
  else
    let next := applyAction cfg s.energy (ps.getD s.stepIdx 0) a
    let idx := s.stepIdx + 1
    let fin := decide (cfg.maxStepsPerEpisode ≤ idx) || decide (ps.length ≤ idx)
    let s' : EnvState :=
      { stepIdx := idx, energy := next.1, cumReward := s.cumReward + next.2, done := fin }
    .ok (s', observe ps s', next.2, fin)

/-- The state after a `step` call: the successor state on success, the
unchanged state when the call raised an error. -/
def stepState (cfg : EnvConfig) (ps : PriceSeries) (s : EnvState) (a : Action) : EnvState :=
  match step cfg ps s a with
  | .ok r => r.1
  | .error _ => s

/-- The done flag after advancing to step index `idx`: the episode ends when
the index reaches max steps per episode or the end of the price series,
whichever is first. -/
def liveDone (cfg : EnvConfig) (ps : PriceSeries) (idx : ℕ) : Bool :=
  decide (cfg.maxStepsPerEpisode ≤ idx) || decide (ps.length ≤ idx)

/-- The successor state a live `step` produces. -/
def liveNext (cfg : EnvConfig) (ps : PriceSeries) (s : EnvState) (a : Action) : EnvState :=
  { stepIdx := s.stepIdx + 1,
    energy := (applyAction cfg s.energy (ps.getD s.stepIdx 0) a).1,
    cumReward := s.cumReward + (applyAction cfg s.energy (ps.getD s.stepIdx 0) a).2,
    done := liveDone cfg ps (s.stepIdx + 1) }

/-- The reward returned by a `step` call, 0 when the call raised an error. -/
def stepReward (cfg : EnvConfig) (ps : PriceSeries) (s : EnvState) (a : Action) : ℚ :=
  match step cfg ps s a with
  | .ok r => r.2.2.1
  | .error _ => 0

/-- The state reached by applying a sequence of actions with `stepState`. -/
def runState (cfg : EnvConfig) (ps : PriceSeries) : EnvState → List Action → EnvState
  | s, [] => s
  | s, a :: rest => runState cfg ps (stepState cfg ps s a) rest

/-- The stored-energy levels observed after each step of an action
sequence. -/
def energyTrace (cfg : EnvConfig) (ps : PriceSeries) : EnvState → List Action → List ℚ
  | _, [] => []
  | s, a :: rest =>
      let s' := stepState cfg ps s a
      s'.energy :: energyTrace cfg ps s' rest

/-- The rewards returned by each step of an action sequence. -/
def rewardTrace (cfg : EnvConfig) (ps : PriceSeries) : EnvState → List Action → List ℚ
  | _, [] => []
  | s, a :: rest =>
      stepReward cfg ps s a :: rewardTrace cfg ps (stepState cfg ps s a) rest

/-- The per-step results (observation, reward, done) of an action sequence,
each step recorded as the `Except` value the environment returned. -/
def runTrace (cfg : EnvConfig) (ps : PriceSeries) :
    EnvState → List Action → List (Except EnvError (Observation × ℚ × Bool))
  | _, [] => []
  | s, a :: rest =>
      match step cfg ps s a with
      | .ok (s', o, r, d) => .ok (o, r, d) :: runTrace cfg ps s' rest
      | .error e => .error e :: runTrace cfg ps s rest

/-- The done flags returned by each successful step of an action sequence
(an erroring step contributes nothing and leaves the state unchanged). -/
def doneTrace (cfg : EnvConfig) (ps : PriceSeries) :
    EnvState → List Action → List Bool
  | _, [] => []
  | s, a :: rest =>
      match step cfg ps s a with
      | .ok (s', _, _, d) => d :: doneTrace cfg ps s' rest
      | .error _ => doneTrace cfg ps s rest

/-- The zero state used only as the discarded argument of the first
`reset`. -/
def initState : EnvState :=
  { stepIdx := 0, energy := 0, cumReward := 0, done := false }

/-- Modelled from the spec: construction-time validation (section 7) — a
non-positive capacity, a non-positive charge or discharge rate, or an empty
`PriceSeries` fails fast with `ConfigurationError`. -/
def validConfig (cfg : EnvConfig) (ps : PriceSeries) : Bool :=
  decide (0 < cfg.capacity) && decide (0 < cfg.chargeRate) &&
    decide (0 < cfg.dischargeRate) && !ps.isEmpty

/-- Modelled from the spec: environment construction, failing fast with
`ConfigurationError` on invalid parameters and otherwise packaging the
immutable configuration and price series. -/
def mkEnv (cfg : EnvConfig) (ps : PriceSeries) :
    Except EnvError (EnvConfig × PriceSeries) :=
  if validConfig cfg ps then .ok (cfg, ps) else .error .ConfigurationError

/-- The per-episode evaluation configuration of an RLlib trainer; the only
field the evaluation notebook touches is `explore`. -/
structure EvaluationConfig where
  explore : Bool
deriving DecidableEq, Repr

/-- The slice of `dqn.DEFAULT_CONFIG` that `get_agent` in the evaluation
notebook overrides: worker count, trainer-level exploration, and the
nested evaluation configuration. -/
structure DQNTrainerConfig where
  numWorkers : ℕ
  explore : Bool
  evaluationConfig : EvaluationConfig
deriving DecidableEq, Repr

/-- The configuration built by `get_agent` in the evaluation notebook:
it copies the library default and sets `num_workers = 1`,
`explore = False`, and `evaluation_config = {explore: False}` before
restoring the checkpoint. -/
def get_agent_config (defaultConfig : DQNTrainerConfig) : DQNTrainerConfig :=
  { defaultConfig with
    numWorkers := 1
    explore := false
    evaluationConfig := { explore := false } }

/-- Modelled from the spec: the evaluation loop of `evaluate_episode` —
reset once, then step repeatedly with the agent's chosen action until done,
recording the per-step tuples.  The fuel argument bounds the loop; the
episode itself terminates at max steps per episode. -/
def evalLoop (policy : Observation → Action) (cfg : EnvConfig) (ps : PriceSeries) :
    ℕ → EnvState → List (Except EnvError (Observation × ℚ × Bool))
  | 0, _ => []
  | fuel + 1, s =>
      if s.done then []
      else
        match step cfg ps s (policy (observe ps s)) with
        | .ok (s', o, r, d) => .ok (o, r, d) :: evalLoop policy cfg ps fuel s'
        | .error e => [.error e]

/-- Modelled from the spec: `evaluate_episode(agent, env)` — the agent is a
function from observation to action; the loop starts from `reset` and runs
until done. -/
def evaluate_episode (policy : Observation → Action) (cfg : EnvConfig)
    (ps : PriceSeries) : List (Except EnvError (Observation × ℚ × Bool)) :=
  evalLoop policy cfg ps (cfg.maxStepsPerEpisode + 1) (reset cfg initState)

/-- The worked example of the design document: capacity 10, charge and
discharge rate 2, efficiency 1, initial stored energy 0, three steps per
episode. -/
def exampleCfg : EnvConfig :=
  { maxStepsPerEpisode := 3, capacity := 10, chargeRate := 2, dischargeRate := 2,
    efficiency := 1, initialEnergy := 0 }

/-- A state whose episode has already terminated, used to exercise the
step-after-done behaviour on a concrete input. -/
def doneState : EnvState :=
  { stepIdx := 3, energy := 2, cumReward := -10, done := true }

/-- A live state holding exactly the example capacity, used to exercise the
charge-at-capacity behaviour on a concrete input. -/
def fullState : EnvState :=
  { stepIdx := 0, energy := 10, cumReward := 0, done := false }

/-- In a live state (episode not done, price available) `step` succeeds and
its components are those computed by `applyAction` and the termination
test. -/
theorem step_live (cfg : EnvConfig) (ps : PriceSeries) (s : EnvState) (a : Action)
    (hd : s.done = false) (hlen : s.stepIdx < ps.length) :
    step cfg ps s a =
      .ok (liveNext cfg ps s a, observe ps (liveNext cfg ps s a),
           (applyAction cfg s.energy (ps.getD s.stepIdx 0) a).2,
           liveDone cfg ps (s.stepIdx + 1)) := by
  unfold step
  rw [if_neg (by simp [hd]), if_neg (Nat.not_le.mpr hlen)]
  rfl

/-- The state after a live `step`, via `stepState`. -/
theorem stepState_live (cfg : EnvConfig) (ps : PriceSeries) (s : EnvState) (a : Action)
    (hd : s.done = false) (hlen : s.stepIdx < ps.length) :
    stepState cfg ps s a = liveNext cfg ps s a := by
  unfold stepState
  rw [step_live cfg ps s a hd hlen]

/-- The reward of a live `step`, via `stepReward`. -/
theorem stepReward_live (cfg : EnvConfig) (ps : PriceSeries) (s : EnvState) (a : Action)
    (hd : s.done = false) (hlen : s.stepIdx < ps.length) :
    stepReward cfg ps s a = (applyAction cfg s.energy (ps.getD s.stepIdx 0) a).2 := by
  unfold stepReward
  rw [step_live cfg ps s a hd hlen]

/-- A `step` that errors leaves the `stepState` unchanged. -/
theorem stepState_of_error (cfg : EnvConfig) (ps : PriceSeries) (s : EnvState)
    (a : Action) (e : EnvError) (h : step cfg ps s a = .error e) :
    stepState cfg ps s a = s := by
  unfold stepState
  rw [h]

/-- The action dispatch keeps the stored energy inside `[0, capacity]`
whenever the rates and efficiency are nonnegative. -/
theorem applyAction_energy_bounds (cfg : EnvConfig) (energy price : ℚ) (a : Action)
    (hcr : 0 ≤ cfg.chargeRate) (hdr : 0 ≤ cfg.dischargeRate) (heff : 0 ≤ cfg.efficiency)
    (h0 : 0 ≤ energy) (h1 : energy ≤ cfg.capacity) :
    0 ≤ (applyAction cfg energy price a).1 ∧
      (applyAction cfg energy price a).1 ≤ cfg.capacity := by
  cases a
  · have hmin0 : (0 : ℚ) ≤ min (cfg.chargeRate * cfg.efficiency) (cfg.capacity - energy) :=
      le_min (mul_nonneg hcr heff) (by linarith)
    have hmin1 : min (cfg.chargeRate * cfg.efficiency) (cfg.capacity - energy) ≤
        cfg.capacity - energy := min_le_right _ _
    simp only [applyAction]
    constructor <;> linarith
  · have hmin0 : (0 : ℚ) ≤ min cfg.dischargeRate energy := le_min hdr h0
    have hmin1 : min cfg.dischargeRate energy ≤ energy := min_le_right _ _
    simp only [applyAction]
    constructor <;> linarith
  · simp only [applyAction]
    exact ⟨h0, h1⟩

/-- A single `stepState` call keeps the stored energy inside `[0, capacity]`
whenever the rates and efficiency are nonnegative. -/
theorem stepState_energy_bounds (cfg : EnvConfig) (ps : PriceSeries) (s : EnvState)
    (a : Action) (hcr : 0 ≤ cfg.chargeRate) (hdr : 0 ≤ cfg.dischargeRate)
    (heff : 0 ≤ cfg.efficiency) (h0 : 0 ≤ s.energy) (h1 : s.energy ≤ cfg.capacity) :
    0 ≤ (stepState cfg ps s a).energy ∧ (stepState cfg ps s a).energy ≤ cfg.capacity := by
  by_cases hd : s.done = true
  · have hs : stepState cfg ps s a = s := by
      unfold stepState step
      simp [hd]
    rw [hs]
    exact ⟨h0, h1⟩
  · rw [Bool.not_eq_true] at hd
    by_cases hlen : s.stepIdx < ps.length
    · rw [stepState_live cfg ps s a hd hlen]
      exact applyAction_energy_bounds cfg s.energy (ps.getD s.stepIdx 0) a hcr hdr heff h0 h1

    · have hs : stepState cfg ps s a = s := by
        unfold stepState step
        simp [hd, Nat.le_of_not_lt hlen]
      rw [hs]
      exact ⟨h0, h1⟩

/-- The stored-energy trace of the design document's worked example. -/
theorem exampleEnergyTrace :
    energyTrace exampleCfg [5, 5, 5] (reset exampleCfg initState)
      [Action.CHARGE, Action.CHARGE, Action.DISCHARGE] = [2, 4, 2] := by
  norm_num [energyTrace, stepState, step, applyAction, observe, reset, exampleCfg,
    initState, min_def]

/-- The reward trace of the design document's worked example. -/
theorem exampleRewardTrace :
    rewardTrace exampleCfg [5, 5, 5] (reset exampleCfg initState)
      [Action.CHARGE, Action.CHARGE, Action.DISCHARGE] = [-10, -10, 10] := by
  norm_num [rewardTrace, stepReward, stepState, step, applyAction, observe, reset,
    exampleCfg, initState, min_def]

/-- Every energy level in `energyTrace` from a state inside the bounds stays
inside the bounds. -/
theorem energyTrace_bounds (cfg : EnvConfig) (ps : PriceSeries)
    (hcr : 0 ≤ cfg.chargeRate) (hdr : 0 ≤ cfg.dischargeRate) (heff : 0 ≤ cfg.efficiency) :
    ∀ (acts : List Action) (s : EnvState), 0 ≤ s.energy → s.energy ≤ cfg.capacity →
      ∀ e ∈ energyTrace cfg ps s acts, 0 ≤ e ∧ e ≤ cfg.capacity
  | [], s, _, _ => by
      intro e he
      simp [energyTrace] at he
  | a :: rest, s, h0, h1 => by
      intro e he
      have hstep := stepState_energy_bounds cfg ps s a hcr hdr heff h0 h1
      simp only [energyTrace, List.mem_cons] at he
      rcases he with rfl | he
      · exact hstep
      · exact energyTrace_bounds cfg ps hcr hdr heff rest _ hstep.1 hstep.2 e he

/-- C1: after `reset` on an environment whose capacity, rates and efficiency
are admissible and whose initial level lies in `[0, capacity]`, every stored
energy level produced by an action sequence of length at most the maximum
steps per episode stays within `[0, capacity]`. -/
theorem stored_energy_in_range (cfg : EnvConfig) (ps : PriceSeries) (s0 : EnvState)
    (acts : List Action) (hcap : 0 < cfg.capacity) (hcr : 0 < cfg.chargeRate)
    (hdr : 0 < cfg.dischargeRate) (heff : 0 ≤ cfg.efficiency)
    (hinit0 : 0 ≤ cfg.initialEnergy) (hinit1 : cfg.initialEnergy ≤ cfg.capacity)
    (hlen : acts.length ≤ cfg.maxStepsPerEpisode) :
    ∀ e ∈ energyTrace cfg ps (reset cfg s0) acts, 0 ≤ e ∧ e ≤ cfg.capacity :=
  energyTrace_bounds cfg ps (le_of_lt hcr) (le_of_lt hdr) heff acts
    (reset cfg s0) hinit0 hinit1

/-- Witness for C1 at the worked example: the level 4 reached by two CHARGE
steps lies inside `[0, 10]`. -/
theorem stored_energy_in_range_witness : (0 : ℚ) ≤ 4 ∧ (4 : ℚ) ≤ exampleCfg.capacity :=
  stored_energy_in_range exampleCfg [5, 5, 5] initState
    [Action.CHARGE, Action.CHARGE, Action.DISCHARGE]
    (by norm_num [exampleCfg]) (by norm_num [exampleCfg]) (by norm_num [exampleCfg])
    (by norm_num [exampleCfg]) (by norm_num [exampleCfg]) (by norm_num [exampleCfg])
    (by norm_num [exampleCfg]) 4 (by rw [exampleEnergyTrace]; norm_num)

/-- C2: for a fixed configuration, price series and action sequence, two
runs each starting with `reset` produce identical (observation, reward,
done) sequences — the environment hides no randomness. -/
theorem episode_trace_deterministic (cfg : EnvConfig) (ps : PriceSeries)
    (acts : List Action) (s₁ s₂ : EnvState)
    (t₁ t₂ : List (Except EnvError (Observation × ℚ × Bool)))
    (h₁ : t₁ = runTrace cfg ps (reset cfg s₁) acts)
    (h₂ : t₂ = runTrace cfg ps (reset cfg s₂) acts) :
    t₁ = t₂ := by
  subst h₁
  subst h₂
  rfl

/-- Witness for C2: two concrete runs of the worked example coincide. -/
theorem episode_trace_deterministic_witness :
    runTrace exampleCfg [5, 5, 5] (reset exampleCfg initState) [Action.CHARGE] =
      runTrace exampleCfg [5, 5, 5] (reset exampleCfg doneState) [Action.CHARGE] :=
  episode_trace_deterministic exampleCfg [5, 5, 5] [Action.CHARGE] initState doneState
    _ _ rfl rfl

/-- C3: calling `step` when the episode is already done raises
`OutOfRangeError` with any action and leaves the state unchanged. -/
theorem step_after_done (cfg : EnvConfig) (ps : PriceSeries) (s : EnvState)
    (a : Action) (h : s.done = true) :
    step cfg ps s a = .error .OutOfRangeError ∧ stepState cfg ps s a = s := by
  have hstep : step cfg ps s a = .error .OutOfRangeError := by
    unfold step
    rw [if_pos h]
  exact ⟨hstep, stepState_of_error cfg ps s a _ hstep⟩

/-- Witness for C3 at a concrete terminated state. -/
theorem step_after_done_witness :
    step exampleCfg [5, 5, 5] doneState Action.CHARGE = .error .OutOfRangeError ∧
      stepState exampleCfg [5, 5, 5] doneState Action.CHARGE = doneState :=
  step_after_done exampleCfg [5, 5, 5] doneState Action.CHARGE rfl

/-- C7: the worked example — capacity 10, charge rate 2, prices `[5, 5, 5]`,
initial energy 0, actions CHARGE, CHARGE, DISCHARGE — yields the
stored-energy trace `[2, 4, 2]` and the reward trace `[-10, -10, 10]`. -/
theorem example_episode :
    energyTrace exampleCfg [5, 5, 5] (reset exampleCfg initState)
        [Action.CHARGE, Action.CHARGE, Action.DISCHARGE] = [2, 4, 2] ∧
      rewardTrace exampleCfg [5, 5, 5] (reset exampleCfg initState)
        [Action.CHARGE, Action.CHARGE, Action.DISCHARGE] = [-10, -10, 10] :=
  ⟨exampleEnergyTrace, exampleRewardTrace⟩

/-- C8: `reset` reinitializes the state (step index 0, configured initial
energy, cumulative reward 0, not done) independently of all prior history,
and the subsequent trace under any action sequence coincides with the trace
of a freshly constructed environment. -/
theorem reset_reinitializes (cfg : EnvConfig) (ps : PriceSeries)
    (s s' : EnvState) (acts : List Action) :
    (reset cfg s).stepIdx = 0 ∧ (reset cfg s).energy = cfg.initialEnergy ∧
      (reset cfg s).cumReward = 0 ∧ (reset cfg s).done = false ∧
      reset cfg s = reset cfg s' ∧
      runTrace cfg ps (reset cfg s) acts = runTrace cfg ps (reset cfg s') acts :=
  ⟨rfl, rfl, rfl, rfl, rfl, rfl⟩

/-- C5: in a live state, DISCHARGE earns revenue only for the energy
actually discharged (`min` of rate and level), never errors, drains to
exactly 0 when the level is at most the rate, and in particular from an
empty battery it yields zero reward and leaves the level at 0. -/
theorem discharge_at_empty (cfg : EnvConfig) (ps : PriceSeries) (s : EnvState)
    (hd : s.done = false) (hlen : s.stepIdx < ps.length)
    (hdr : 0 ≤ cfg.dischargeRate) :
    stepReward cfg ps s Action.DISCHARGE =
        min cfg.dischargeRate s.energy * ps.getD s.stepIdx 0 ∧
      (∃ out, step cfg ps s Action.DISCHARGE = .ok out) ∧
      (stepState cfg ps s Action.DISCHARGE).energy =
        s.energy - min cfg.dischargeRate s.energy ∧
      (s.energy ≤ cfg.dischargeRate → (stepState cfg ps s Action.DISCHARGE).energy = 0) ∧
      (s.energy = 0 → stepReward cfg ps s Action.DISCHARGE = 0 ∧
        (stepState cfg ps s Action.DISCHARGE).energy = 0) := by
  have hr := stepReward_live cfg ps s Action.DISCHARGE hd hlen
  have hs := stepState_live cfg ps s Action.DISCHARGE hd hlen
  refine ⟨?_, ⟨_, step_live cfg ps s Action.DISCHARGE hd hlen⟩, ?_, ?_, ?_⟩
  · rw [hr]
    simp [applyAction]
  · rw [hs]
    simp [liveNext, applyAction]
  · intro hle
    rw [hs]
    simp [liveNext, applyAction, min_eq_right hle]
  · intro h0
    constructor
    · rw [hr]
      simp [applyAction, h0, min_eq_right hdr]
    · rw [hs]
      simp [liveNext, applyAction, h0, min_eq_right hdr]

/-- Witness for C5 at the empty initial state of the worked example. -/
theorem discharge_at_empty_witness :
    stepReward exampleCfg [5, 5, 5] initState Action.DISCHARGE =
        min exampleCfg.dischargeRate initState.energy *
          ([5, 5, 5] : PriceSeries).getD initState.stepIdx 0 ∧
      (∃ out, step exampleCfg [5, 5, 5] initState Action.DISCHARGE = .ok out) ∧
      (stepState exampleCfg [5, 5, 5] initState Action.DISCHARGE).energy =
        initState.energy - min exampleCfg.dischargeRate initState.energy ∧
      (initState.energy ≤ exampleCfg.dischargeRate →
        (stepState exampleCfg [5, 5, 5] initState Action.DISCHARGE).energy = 0) ∧
      (initState.energy = 0 → stepReward exampleCfg [5, 5, 5] initState Action.DISCHARGE = 0 ∧
        (stepState exampleCfg [5, 5, 5] initState Action.DISCHARGE).energy = 0) :=
  discharge_at_empty exampleCfg [5, 5, 5] initState rfl
    (by norm_num [initState]) (by norm_num [exampleCfg])

/-- C6: in a live state holding exactly the capacity, CHARGE succeeds,
leaves the stored energy unchanged at capacity, and still incurs the full
cost charge-rate × price (the configured clipping policy). -/
theorem charge_at_capacity (cfg : EnvConfig) (ps : PriceSeries) (s : EnvState)
    (hd : s.done = false) (hlen : s.stepIdx < ps.length)
    (hcr : 0 ≤ cfg.chargeRate) (heff : 0 ≤ cfg.efficiency)
    (hfull : s.energy = cfg.capacity) :
    (∃ out, step cfg ps s Action.CHARGE = .ok out) ∧
      (stepState cfg ps s Action.CHARGE).energy = cfg.capacity ∧
      stepReward cfg ps s Action.CHARGE = -(cfg.chargeRate * ps.getD s.stepIdx 0) := by
  have hr := stepReward_live cfg ps s Action.CHARGE hd hlen
  have hs := stepState_live cfg ps s Action.CHARGE hd hlen
  refine ⟨⟨_, step_live cfg ps s Action.CHARGE hd hlen⟩, ?_, ?_⟩
  · rw [hs]
    simp only [liveNext, applyAction, hfull, sub_self]
    rw [min_eq_right (mul_nonneg hcr heff), add_zero]
  · rw [hr]
    simp [applyAction]

/-- Witness for C6 at a concrete full battery. -/
theorem charge_at_capacity_witness :
    (∃ out, step exampleCfg [5, 5, 5] fullState Action.CHARGE = .ok out) ∧
      (stepState exampleCfg [5, 5, 5] fullState Action.CHARGE).energy = exampleCfg.capacity ∧
      stepReward exampleCfg [5, 5, 5] fullState Action.CHARGE =
        -(exampleCfg.chargeRate * ([5, 5, 5] : PriceSeries).getD fullState.stepIdx 0) :=
  charge_at_capacity exampleCfg [5, 5, 5] fullState rfl (by norm_num [fullState])
    (by norm_num [exampleCfg]) (by norm_num [exampleCfg]) (by norm_num [fullState, exampleCfg])

/-- C9: construction fails with `ConfigurationError` exactly when capacity
or a rate is non-positive or the price series is empty, and `step` can never
raise `ConfigurationError` on a constructed environment. -/
theorem configuration_validation (cfg : EnvConfig) (ps : PriceSeries) :
    (mkEnv cfg ps = .error .ConfigurationError ↔
      ¬(0 < cfg.capacity ∧ 0 < cfg.chargeRate ∧ 0 < cfg.dischargeRate ∧ ps ≠ [])) ∧
    ∀ (s : EnvState) (a : Action), step cfg ps s a ≠ .error .ConfigurationError := by
  have hval : validConfig cfg ps = true ↔
      (0 < cfg.capacity ∧ 0 < cfg.chargeRate ∧ 0 < cfg.dischargeRate ∧ ps ≠ []) := by
    simp [validConfig, List.isEmpty_iff, and_assoc]
  constructor
  · constructor
    · intro herr hcond
      rw [mkEnv, if_pos (hval.mpr hcond)] at herr
      exact Except.noConfusion herr
    · intro hcond
      rw [mkEnv, if_neg (fun hv => hcond (hval.mp hv))]
  · intro s a hstep
    unfold step at hstep
    by_cases hd : s.done = true
    · rw [if_pos hd] at hstep
      simp at hstep
    · rw [if_neg hd] at hstep
      by_cases hlen : ps.length ≤ s.stepIdx
      · rw [if_pos hlen] at hstep
        simp at hstep
      · rw [if_neg hlen] at hstep
        exact Except.noConfusion hstep

/-- Witness for C9 at the worked example's valid parameters. -/
theorem configuration_validation_witness :
    mkEnv exampleCfg [5, 5, 5] = .error .ConfigurationError ↔
      ¬(0 < exampleCfg.capacity ∧ 0 < exampleCfg.chargeRate ∧
        0 < exampleCfg.dischargeRate ∧ ([5, 5, 5] : PriceSeries) ≠ []) :=
  (configuration_validation exampleCfg [5, 5, 5]).1

/-- C10: the evaluation notebook's `get_agent` disables exploration in both
the trainer configuration and the nested evaluation configuration, so for a
fixed restored policy and a fixed environment two evaluation runs return
the same episode trace. -/
theorem dqn_eval_explore_disabled (d : DQNTrainerConfig) (policy : Observation → Action)
    (cfg : EnvConfig) (ps : PriceSeries)
    (t₁ t₂ : List (Except EnvError (Observation × ℚ × Bool)))
    (h₁ : t₁ = evaluate_episode policy cfg ps)
    (h₂ : t₂ = evaluate_episode policy cfg ps) :
    (get_agent_config d).explore = false ∧
      (get_agent_config d).evaluationConfig.explore = false ∧ t₁ = t₂ := by
  subst h₁
  subst h₂
  exact ⟨rfl, rfl, rfl⟩

/-- Witness for C10 at a concrete default configuration, policy and
environment. -/
theorem dqn_eval_explore_disabled_witness :
    (get_agent_config
        { numWorkers := 0, explore := true,
          evaluationConfig := { explore := true } }).explore = false ∧
      (get_agent_config
        { numWorkers := 0, explore := true,
          evaluationConfig := { explore := true } }).evaluationConfig.explore = false ∧
      evaluate_episode (fun _ => Action.HOLD) exampleCfg [5, 5, 5] =
        evaluate_episode (fun _ => Action.HOLD) exampleCfg [5, 5, 5] :=
  dqn_eval_explore_disabled
    { numWorkers := 0, explore := true, evaluationConfig := { explore := true } }
    (fun _ => Action.HOLD) exampleCfg [5, 5, 5] _ _ rfl rfl

/-- When the price series covers the whole episode, the done flag after
advancing to an index within the episode budget reduces to the max-steps
test alone. -/
theorem liveDone_eq_max_test (cfg : EnvConfig) (ps : PriceSeries) (idx : ℕ)
    (hps : cfg.maxStepsPerEpisode ≤ ps.length) (hbound : idx ≤ cfg.maxStepsPerEpisode) :
    liveDone cfg ps idx = decide (cfg.maxStepsPerEpisode ≤ idx) := by
  rcases le_or_lt cfg.maxStepsPerEpisode idx with hm | hm
  · simp [liveDone, hm]
  · have hA : ¬cfg.maxStepsPerEpisode ≤ idx := Nat.not_le.mpr hm
    have hB : ¬ps.length ≤ idx := by omega
    simp [liveDone, hA, hB]

/-- The done flags of an episode segment whose step budget fits in the
remaining max steps: each flag records exactly whether the resulting step
index reached max steps per episode. -/
theorem doneTrace_formula (cfg : EnvConfig) (ps : PriceSeries)
    (hps : cfg.maxStepsPerEpisode ≤ ps.length) (acts : List Action) :
    ∀ s : EnvState, s.done = false →
      s.stepIdx + acts.length ≤ cfg.maxStepsPerEpisode →
      doneTrace cfg ps s acts =
        (List.range acts.length).map
          (fun k => decide (cfg.maxStepsPerEpisode ≤ s.stepIdx + k + 1)) := by
  induction acts with
  | nil =>
      intro s _ _
      simp [doneTrace]
  | cons a rest ih =>
      intro s hd hbound
      have hlt : s.stepIdx < cfg.maxStepsPerEpisode := by
        simp only [List.length_cons] at hbound
        omega
      have hlen : s.stepIdx < ps.length := lt_of_lt_of_le hlt hps
      have hstep := step_live cfg ps s a hd hlen
      have hidx : (liveNext cfg ps s a).stepIdx = s.stepIdx + 1 := rfl
      have hdone : (liveNext cfg ps s a).done = liveDone cfg ps (s.stepIdx + 1) := rfl
      simp only [doneTrace, hstep]
      simp only [List.length_cons]
      rw [List.range_succ_eq_map, List.map_cons, List.map_map]
      congr 1
      · rw [liveDone_eq_max_test cfg ps (s.stepIdx + 1) hps (by omega)]
      · rcases rest with _ | ⟨b, rest'⟩
        · simp [doneTrace]
        · have hbound' : (liveNext cfg ps s a).stepIdx + (b :: rest').length ≤
              cfg.maxStepsPerEpisode := by
            rw [hidx]
            simp only [List.length_cons] at hbound ⊢
            omega
          have hd' : (liveNext cfg ps s a).done = false := by
            rw [hdone, liveDone_eq_max_test cfg ps (s.stepIdx + 1) hps (by omega)]
            simp only [List.length_cons] at hbound
            simp only [decide_eq_false_iff_not]
            omega
          rw [ih (liveNext cfg ps s a) hd' hbound']
          apply List.map_congr_left
          intro k _
          simp only [Function.comp_apply, hidx]
          rw [decide_eq_decide]
          omega

/-- C4: when the price series has at least max-steps-per-episode entries,
the done flag returned by each step of an episode is false while the
resulting step index is strictly below max steps per episode and becomes
true exactly when the index reaches it — never earlier. -/
theorem done_exactly_at_max (cfg : EnvConfig) (ps : PriceSeries) (s0 : EnvState)
    (acts : List Action) (hps : cfg.maxStepsPerEpisode ≤ ps.length)
    (hlen : acts.length ≤ cfg.maxStepsPerEpisode) :
    doneTrace cfg ps (reset cfg s0) acts =
      (List.range acts.length).map (fun k => decide (cfg.maxStepsPerEpisode ≤ k + 1)) := by
  have h := doneTrace_formula cfg ps hps acts (reset cfg s0) rfl (by simpa [reset] using hlen)
  rw [h]
  apply List.map_congr_left
  intro k _
  rw [decide_eq_decide]
  simp [reset]

/-- Witness for C4 at the worked example: flags `[false, false, true]` over
three steps with a three-step budget. -/
theorem done_exactly_at_max_witness :
    doneTrace exampleCfg [5, 5, 5] (reset exampleCfg initState)
        [Action.CHARGE, Action.CHARGE, Action.DISCHARGE] =
      (List.range ([Action.CHARGE, Action.CHARGE, Action.DISCHARGE] : List Action).length).map
        (fun k => decide (exampleCfg.maxStepsPerEpisode ≤ k + 1)) :=
  done_exactly_at_max exampleCfg [5, 5, 5] initState
    [Action.CHARGE, Action.CHARGE, Action.DISCHARGE]
    (by norm_num [exampleCfg]) (by norm_num [exampleCfg])

end EnergyStorage
